import Mathlib

set_option maxHeartbeats 1000000
set_option maxRecDepth 20000

/- Shallow embedding of `src/aggregator.py` (LeAggregator).

   Machine time instants are modelled as `Int` (seconds since epoch);
   `datetime.timedelta(days=14)` is the constant 1209600 seconds.
   External effects are modelled as explicit oracles passed in as functions:
   `fetch : String → Option String` is the result of `fetch_url_content`
   (`none` = failure), and `pd : String → Option Int` is `dateutil`'s
   `date_parser.parse` (`none` = the parser raised an exception).
   Python exceptions that the source does not catch are modelled with
   `Except Unit`; exceptions the source catches locally become `Option`/skips. -/

namespace Aggregator

def BASE_REPO_URL : String := "https://github.com/USER/REPO"

/-- Guard shared by the three extraction strategies of `fetch_url_content`:
    a strategy result counts only if it is text of length strictly above 600.
    (`none` models both an exception inside the strategy and a falsy result.) -/
def okText (r : Option String) : Option String :=
  match r with
  | some t => if 600 < t.length then some t else none
  | none => none

/-- First-success selection: `return` on the first branch that yields text. -/
def firstSome (a b : Option String) : Option String :=
  match a with
  | some t => some t
  | none => b

/-- One iteration of the `for attempt in range(3)` loop in `fetch_url_content`:
    try trafilatura, then newspaper, then crawl4ai, returning on first success.
    `r s` is the raw outcome of strategy `s` in this attempt. -/
def attemptFetch (r : Fin 3 → Option String) : Option String :=
  firstSome (okText (r 0)) (firstSome (okText (r 1)) (okText (r 2)))

/-- `fetch_url_content` (src/aggregator.py lines 130-158): three attempts,
    each running the three strategies in order; returns `none` if all fail.
    `res a s` is the raw outcome of strategy `s` during attempt `a`. -/
def fetchUrlContent (res : Fin 3 → Fin 3 → Option String) : Option String :=
  firstSome (attemptFetch (res 0)) (firstSome (attemptFetch (res 1)) (attemptFetch (res 2)))

/-- Concrete strategy oracle: every strategy returns 500 characters of text. -/
def shortRes : Fin 3 → Fin 3 → Option String :=
  fun _ _ => some (String.mk (List.replicate 500 'a'))

/-- The default last-run string hard-coded in `main` (src/aggregator.py line 329). -/
def EPOCH_STR : String := "1970-01-01T00:00:00Z"

/-- Python's `str.strip()`: drop whitespace from both ends. -/
def strip (s : String) : String :=
  String.mk (((s.data.dropWhile Char.isWhitespace).reverse.dropWhile Char.isWhitespace).reverse)

/-- The state-reading prologue of `main` (src/aggregator.py lines 327-333):
    if the state file exists its stripped contents replace the epoch default,
    then `date_parser.parse` is applied (outside any `try`).  `pd` is the
    parse oracle; a `none` result models the parser raising, which aborts
    the run. -/
def readLastRun (pd : String → Option Int) (stateExists : Bool) (contents : String) :
    Option Int :=
  let s := if stateExists then strip contents else EPOCH_STR
  pd s

/-- Concrete stand-in for `date_parser.parse`: parses the epoch default and a
    few small integer strings, fails on everything else. -/
def parseTs : String → Option Int :=
  fun s =>
    if s = EPOCH_STR then some 0
    else if s = "0" then some 0
    else if s = "1" then some 1
    else if s = "5" then some 5
    else none

/-- An entry of an existing category feed file as seen through
    `feedparser.parse` in `load_existing_items`; `published = none` models the
    attribute being absent (an `AttributeError` inside the inner `try`),
    `id = none` models `'id' not in entry`. -/
structure FeedEntry where
  published : Option String
  title : String
  link : String
  description : String
  id : Option String
deriving DecidableEq

/-- A serialized feed item (`PyRSS2Gen.RSSItem`); the guid is the plain string
    wrapped by `PyRSS2Gen.Guid(..., isPermaLink=False)`. -/
structure Item where
  title : String
  link : String
  description : String
  guid : String
  pubDate : Int
deriving DecidableEq

/-- Body of the per-entry `try` in `load_existing_items` (lines 188-202):
    parse `entry.published`, keep the item only when `dt > cutoff`; any
    failure (missing attribute, parse error) hits `continue`. -/
def entryToItem (pd : String → Option Int) (cutoff : Int) (e : FeedEntry) : Option Item :=
  match e.published with
  | none => none
  | some ps =>
    match pd ps with
    | none => none
    | some dt =>
      if cutoff < dt then
        some { title := e.title, link := e.link, description := e.description,
               guid := e.id.getD e.link, pubDate := dt }
      else none

/-- `load_existing_items` (src/aggregator.py lines 181-206) on an already
    parsed entry list; a missing or unparsable file yields the empty entry
    list upstream. -/
def loadExistingItems (pd : String → Option Int) (cutoff : Int)
    (entries : List FeedEntry) : List Item :=
  entries.filterMap (entryToItem pd cutoff)

/-- A theme returned by the summarization call, already schema-validated. -/
structure Theme where
  title : String
  expanded_html : String
deriving DecidableEq

/-- Escape of a single character as done by Python's `html.escape` with
    `quote=True`. -/
def escapeChar (c : Char) : String :=
  if c = '&' then "&amp;"
  else if c = '<' then "&lt;"
  else if c = '>' then "&gt;"
  else if c = '"' then "&quot;"
  else if c = '\'' then "&#x27;"
  else String.mk [c]

/-- Python's `html.escape` used on theme titles in `update_xml_feed`. -/
def htmlEscape (s : String) : String :=
  String.join (s.data.map escapeChar)

/-- The fixed 14-day retention window, `datetime.timedelta(days=14)`,
    in seconds. -/
def RETENTION_SECONDS : Int := 1209600

/-- The item synthesized for one new theme (src/aggregator.py lines 213-228):
    escaped title, repository link, raw theme HTML as description, guid
    `f"{category}-{content_hash}"` where `content_hash` is a deterministic
    hash (`hashlib.sha256(...).hexdigest()`, abstracted as `hash`), publish
    time `now`. -/
def themeToItem (hash : String → String) (category : String) (now : Int) (t : Theme) : Item :=
  { title := htmlEscape t.title
    link := BASE_REPO_URL
    description := t.expanded_html
    guid := category ++ "-" ++ hash t.expanded_html
    pubDate := now }

/-- The placeholder appended when the merged list is empty
    (src/aggregator.py lines 231-241). -/
def placeholderItem (category : String) (now : Int) : Item :=
  { title := "No recent thematic stories"
    link := BASE_REPO_URL
    description := "<div><p>No new high-confidence AI-curated themes in the last run. Check back after the next update (every 4 hours).</p></div>"
    guid := category ++ "-placeholder-" ++ toString now
    pubDate := now }

/-- One step of Python's stable sort with `key=lambda i: i.pubDate` and
    `reverse=True`: insert into a descending-by-pubDate list. -/
def insertByDateDesc (x : Item) : List Item → List Item
  | [] => [x]
  | y :: ys => if y.pubDate ≤ x.pubDate then x :: y :: ys else y :: insertByDateDesc x ys

/-- `items.sort(key=lambda i: i.pubDate, reverse=True)`. -/
def sortDesc (l : List Item) : List Item :=
  l.foldr insertByDateDesc []

/-- Surviving existing items plus one item per new theme, with the empty-feed
    placeholder fallback (src/aggregator.py lines 210-241). -/
def mergedItems (hash : String → String) (pd : String → Option Int) (category : String)
    (new_themes : List Theme) (now : Int) (entries : List FeedEntry) : List Item :=
  if (loadExistingItems pd (now - RETENTION_SECONDS) entries ++
      new_themes.map (themeToItem hash category now)).isEmpty then
    [placeholderItem category now]
  else
    loadExistingItems pd (now - RETENTION_SECONDS) entries ++
      new_themes.map (themeToItem hash category now)

/-- The item list written out by `update_xml_feed`
    (src/aggregator.py lines 208-251): merge then sort by pubDate descending.
    Serialization to XML text and the file write are modelled separately. -/
def updateXmlFeed (hash : String → String) (pd : String → Option Int) (category : String)
    (new_themes : List Theme) (now : Int) (entries : List FeedEntry) : List Item :=
  sortDesc (mergedItems hash pd category new_themes now entries)

/-- An entry of a fetched RSS source feed as used by `process_category`;
    `published = none` models `'published' not in entry`.  The `summary`
    field carries the entry's inline body text — present in the feed data
    but never read by the source. -/
structure RssEntry where
  published : Option String
  link : String
  title : String
  summary : String
deriving DecidableEq

/-- A collected candidate before prompt formatting: the fields interpolated
    into the article block appended by `process_category`. -/
structure Candidate where
  title : String
  url : String
  pub : Int
  content : String
deriving DecidableEq

/-- Python `set.add` on the seen-URL set, modelled on a duplicate-free list. -/
def addSeen (s : List String) (x : String) : List String :=
  if x ∈ s then s else x :: s

/-- The article block appended for one candidate
    (src/aggregator.py lines 287-288): title truncated to 80 characters with
    an `"Untitled"` fallback, content truncated to 2200 characters. -/
def formatArticle (c : Candidate) : String :=
  "Title: " ++ (if c.title = "" then "Untitled" else c.title).take 80 ++
  "\nURL: " ++ c.url ++ "\nPublished: " ++ toString c.pub ++
  "\nContent: " ++ c.content.take 2200 ++ "...\n---"

/-- The signal block appended for one candidate in `process_social_pulse`
    (src/aggregator.py line 317): excerpt truncated to 800 characters. -/
def formatSignal (c : Candidate) : String :=
  "Discussion signal from " ++ c.url ++ ":\nTitle: " ++ c.title ++
  "\nExcerpt: " ++ c.content.take 800 ++ "...\n---"

/-- The body of the per-entry loop of `process_category`
    (src/aggregator.py lines 275-288): skip entries without `published`,
    parse the date (`date_parser.parse` outside any `try`: a parse failure —
    `none` — aborts the run), skip entries not strictly newer than
    `last_run`, skip already-seen links, fetch the link's content
    (`fetch_url_content`; `none` or empty is falsy → skip), and on success
    add the link to the seen set and emit a candidate. -/
def entryStep (fetch : String → Option String) (pd : String → Option Int) (lastRun : Int)
    (seen : List String) (e : RssEntry) : Except Unit (Option Candidate × List String) :=
  match e.published with
  | none => Except.ok (none, seen)
  | some ps =>
    match pd ps with
    | none => Except.error ()
    | some pub =>
      if pub ≤ lastRun then Except.ok (none, seen)
      else if e.link ∈ seen then Except.ok (none, seen)
      else
        match fetch e.link with
        | none => Except.ok (none, seen)
        | some c =>
          if c = "" then Except.ok (none, seen)
          else Except.ok (some ⟨e.title, e.link, pub, c⟩, addSeen seen e.link)

/-- The candidate-collection loop of `process_category` over one source's
    entries, threading the mutable seen set and the accumulated article
    batch. -/
def collectGo (fetch : String → Option String) (pd : String → Option Int) (lastRun : Int) :
    List RssEntry → List String → List Candidate →
      Except Unit (List Candidate × List String)
  | [], seen, acc => Except.ok (acc.reverse, seen)
  | e :: es, seen, acc =>
    match entryStep fetch pd lastRun seen e with
    | Except.error _ => Except.error ()
    | Except.ok (none, seen1) => collectGo fetch pd lastRun es seen1 acc
    | Except.ok (some cand, seen1) => collectGo fetch pd lastRun es seen1 (cand :: acc)

/-- Candidate collection of `process_category` (src/aggregator.py
    lines 270-299) for one category: the returned pair is the article batch
    handed to the summarizer (before `formatArticle` interpolation) and the
    mutated process-wide seen set. -/
def collect (fetch : String → Option String) (pd : String → Option Int) (lastRun : Int)
    (seen : List String) (es : List RssEntry) :
    Except Unit (List Candidate × List String) :=
  collectGo fetch pd lastRun es seen []

/-- The body of the per-entry loop of `process_social_pulse`
    (src/aggregator.py lines 304-317): same filters as `process_category`,
    but a successful fetch does not add the link to the seen set. -/
def signalStep (fetch : String → Option String) (pd : String → Option Int) (lastRun : Int)
    (seen : List String) (e : RssEntry) : Except Unit (Option Candidate) :=
  match e.published with
  | none => Except.ok none
  | some ps =>
    match pd ps with
    | none => Except.error ()
    | some pub =>
      if pub ≤ lastRun then Except.ok none
      else if e.link ∈ seen then Except.ok none
      else
        match fetch e.link with
        | none => Except.ok none
        | some c =>
          if c = "" then Except.ok none
          else Except.ok (some ⟨e.title, e.link, pub, c⟩)

/-- The signal-collection loop of `process_social_pulse`. -/
def collectSignalsGo (fetch : String → Option String) (pd : String → Option Int)
    (lastRun : Int) (seen : List String) :
    List RssEntry → List Candidate → Except Unit (List Candidate)
  | [], acc => Except.ok acc.reverse
  | e :: es, acc =>
    match signalStep fetch pd lastRun seen e with
    | Except.error _ => Except.error ()
    | Except.ok none => collectSignalsGo fetch pd lastRun seen es acc
    | Except.ok (some cand) => collectSignalsGo fetch pd lastRun seen es (cand :: acc)

/-- Signal collection of `process_social_pulse`
    (src/aggregator.py lines 301-325). -/
def collectSignals (fetch : String → Option String) (pd : String → Option Int)
    (lastRun : Int) (seen : List String) (es : List RssEntry) :
    Except Unit (List Candidate) :=
  collectSignalsGo fetch pd lastRun seen es []

/-- Modelled from the spec: the block filter the specification describes for
    candidate collection — a case-insensitive match of a configured pattern
    against the extracted text (restricted here to literal substring
    patterns).  `src/aggregator.py` contains no such filter; the
    `omit_categories` configuration is only interpolated into the prompt
    text. -/
def lcChar (c : Char) : Char :=
  if c = 'A' then 'a' else if c = 'B' then 'b' else if c = 'C' then 'c'
  else if c = 'D' then 'd' else if c = 'E' then 'e' else if c = 'F' then 'f'
  else if c = 'G' then 'g' else if c = 'H' then 'h' else if c = 'I' then 'i'
  else if c = 'J' then 'j' else if c = 'K' then 'k' else if c = 'L' then 'l'
  else if c = 'M' then 'm' else if c = 'N' then 'n' else if c = 'O' then 'o'
  else if c = 'P' then 'p' else if c = 'Q' then 'q' else if c = 'R' then 'r'
  else if c = 'S' then 's' else if c = 'T' then 't' else if c = 'U' then 'u'
  else if c = 'V' then 'v' else if c = 'W' then 'w' else if c = 'X' then 'x'
  else if c = 'Y' then 'y' else if c = 'Z' then 'z' else c

/-- Substring occurrence on character lists. -/
def containsSub (pat : List Char) : List Char → Bool
  | [] => pat.isPrefixOf ([] : List Char)
  | c :: t => pat.isPrefixOf (c :: t) || containsSub pat t

/-- Modelled from the spec: case-insensitive occurrence of one literal block
    pattern in a text. -/
def matchesPattern (pat text : String) : Bool :=
  containsSub (pat.data.map lcChar) (text.data.map lcChar)

/-- Modelled from the spec: whether any configured block-content pattern
    matches the extracted text. -/
def blockMatches (pats : List String) (text : String) : Bool :=
  pats.any (fun p => matchesPattern p text)

/-- The RSS entry used in the C2 counterexample; its inline summary is
    present but ignored by the code. -/
def cexEntry : RssEntry := ⟨some "5", "https://x/1", "T", "inline summary text"⟩

/-- A fetched article body longer than the 600-character threshold. -/
def longA : String := String.mk (List.replicate 601 'a')

/-- Fetch oracle for the C2 counterexample and witness. -/
def cexFetch : String → Option String := fun _ => some longA

/-- Repetition of a string, used to build a long blocked text. -/
def repStr : Nat → String → String
  | 0, _ => ""
  | n + 1, s => s ++ repStr n s

/-- A 606-character fetched body that matches the block pattern "crypto". -/
def longCrypto : String := repStr 101 "crypto"

/-- The RSS entry used in the C4 counterexample. -/
def cexEntryBlock : RssEntry := ⟨some "5", "https://y/1", "T", "s"⟩

/-- A category output file as read back by `get_seen_urls`: the `link` fields
    of its items (present in the XML but never extracted by the code) and,
    for every `description` element of the document, the `href` attributes of
    its embedded anchors — `none` when the inner fragment parse raises and is
    swallowed by the inner bare `except`. -/
structure XmlFile where
  itemLinks : List String
  descriptions : List (Option (List String))
deriving DecidableEq

/-- The innermost loop of `get_seen_urls` (src/aggregator.py lines 120-123):
    `if href: seen.add(href.strip())`. -/
def addHref (s : List String) (h : String) : List String :=
  if h = "" then s else addSeen s (strip h)

/-- Contribution of one `description` element (lines 116-125): parse the
    fragment and collect anchor hrefs, or swallow the parse failure. -/
def addDesc (s : List String) (d : Option (List String)) : List String :=
  match d with
  | none => s
  | some hrefs => hrefs.foldl addHref s

/-- Contribution of one category file (lines 110-127): skip a missing or
    unparsable file, otherwise walk all of its `description` elements. -/
def addFile (s : List String) (f : Option XmlFile) : List String :=
  match f with
  | none => s
  | some file => file.descriptions.foldl addDesc s

/-- `get_seen_urls` (src/aggregator.py lines 106-128): one process-wide set
    accumulated over every category's output file. -/
def getSeenUrls (files : List (Option XmlFile)) : List String :=
  files.foldl addFile []

/-- Fetched body for the C9 witness. -/
def pulseContent : String := String.mk (List.replicate 601 'b')

/-- RSS entry for the C9 witness. -/
def pulseEntry : RssEntry := ⟨some "5", "https://p/1", "P", "s"⟩

/-- The category loop of `main` (src/aggregator.py lines 339-341) with the
    per-category work abstracted to its observable outcome: `writeCat c` is
    the result of processing category `c` and serializing/writing its output
    file (`update_xml_feed` contains no `try` around `rss.write_xml` or the
    `open(...)`/`write`, and `main` wraps the loop body in no handler, so an
    `Except.error` propagates).  The result is the list of categories whose
    files were written, paired with `true` iff the loop ran to completion
    (and hence the run goes on to the social-pulse pass and the state-file
    write). -/
def mainRun (writeCat : String → Except Unit Unit) : List String → List String × Bool
  | [] => ([], true)
  | c :: cs =>
    match writeCat c with
    | Except.ok _ =>
      let r := mainRun writeCat cs
      (c :: r.1, r.2)
    | Except.error _ => ([], false)

/-- Write oracle for the C3 counterexample: only "alpha" fails. -/
def failOnAlpha : String → Except Unit Unit :=
  fun c => if c = "alpha" then Except.error () else Except.ok ()

theorem firstSome_eq_some {a b : Option String} {t : String} (h : firstSome a b = some t) :
    a = some t ∨ (a = none ∧ b = some t) := by
  cases a <;> simp [firstSome] at h <;> simp [h]

theorem okText_some {r : Option String} {t : String} (h : okText r = some t) :
    600 < t.length := by
  cases r with
  | none => simp [okText] at h
  | some t2 =>
    simp only [okText] at h
    split at h
    · cases h
      assumption
    · cases h

theorem okText_none_of_short {r : Option String} (h : ∀ t, r = some t → t.length ≤ 600) :
    okText r = none := by
  cases r with
  | none => rfl
  | some t =>
    have ht := h t rfl
    simp [okText, Nat.not_lt_of_le ht]

theorem attemptFetch_some {r : Fin 3 → Option String} {t : String}
    (h : attemptFetch r = some t) : 600 < t.length := by
  unfold attemptFetch at h
  rcases firstSome_eq_some h with h0 | ⟨_, h1⟩
  · exact okText_some h0
  rcases firstSome_eq_some h1 with h2 | ⟨_, h3⟩
  · exact okText_some h2
  · exact okText_some h3

theorem attemptFetch_none_of_short {r : Fin 3 → Option String}
    (h : ∀ s t, r s = some t → t.length ≤ 600) : attemptFetch r = none := by
  unfold attemptFetch
  rw [okText_none_of_short (h 0), okText_none_of_short (h 1), okText_none_of_short (h 2)]
  rfl

/-- C8: `fetch_url_content` returns text only when some strategy yields text of
    length strictly greater than 600; any strategy result of 600 or fewer
    characters counts as a strategy failure, and if every strategy result on
    every attempt is missing or short the fetch returns `none`. -/
theorem fetch_content_threshold (res : Fin 3 → Fin 3 → Option String) :
    (∀ t, fetchUrlContent res = some t → 600 < t.length) ∧
    ((∀ a s t, res a s = some t → t.length ≤ 600) → fetchUrlContent res = none) := by
  constructor
  · intro t h
    unfold fetchUrlContent at h
    rcases firstSome_eq_some h with h0 | ⟨_, h1⟩
    · exact attemptFetch_some h0
    rcases firstSome_eq_some h1 with h2 | ⟨_, h3⟩
    · exact attemptFetch_some h2
    · exact attemptFetch_some h3
  · intro h
    unfold fetchUrlContent
    rw [attemptFetch_none_of_short (h 0), attemptFetch_none_of_short (h 1),
      attemptFetch_none_of_short (h 2)]
    rfl

/-- Witness for C8: with every strategy returning a 500-character page
    (no network error), the fetch still returns `none`. -/
theorem fetch_content_threshold_witness : fetchUrlContent shortRes = none :=
  (fetch_content_threshold shortRes).2 (fun _ _ t h => by
    simp only [shortRes] at h
    cases h
    decide)

/-- Counterexample for C6: with a parse oracle that handles the epoch default,
    a state file whose contents are unparsable ("garbage") makes
    `date_parser.parse` raise — the run aborts instead of falling back to the
    epoch, contradicting the claim's second failure case. -/
theorem state_unparsable_cex :
    readLastRun parseTs true "garbage" = none ∧
    readLastRun parseTs false "garbage" = some 0 := by
  constructor <;> decide

/-- C6 (amended): when the state file is missing the run proceeds from the
    epoch default string; but when the file exists and its contents do not
    parse, the parse exception propagates and the run aborts (`none`). -/
theorem read_last_run_amended (pd : String → Option Int) (contents : String) :
    readLastRun pd false contents = pd EPOCH_STR ∧
    (pd (strip contents) = none → readLastRun pd true contents = none) := by
  constructor
  · rfl
  · intro h
    simpa [readLastRun] using h

/-- Witness for C6's amended theorem at the concrete parse oracle. -/
theorem read_last_run_amended_witness :
    readLastRun parseTs true "  not a date " = none :=
  (read_last_run_amended parseTs "  not a date ").2 (by decide)

/-- C10: an existing feed entry whose published date is missing or does not
    parse is silently dropped from the merge, regardless of the cutoff:
    removing such an entry from the input leaves `load_existing_items`
    unchanged, and every surviving item stems from an entry with a parsable
    date strictly inside the window. -/
theorem unparsable_pubdate_dropped (pd : String → Option Int) (cutoff : Int)
    (es1 es2 : List FeedEntry) (e : FeedEntry)
    (h : e.published = none ∨ ∃ ps, e.published = some ps ∧ pd ps = none) :
    loadExistingItems pd cutoff (es1 ++ e :: es2) = loadExistingItems pd cutoff (es1 ++ es2) := by
  have he : entryToItem pd cutoff e = none := by
    rcases h with h | ⟨ps, hps, hpd⟩
    · simp [entryToItem, h]
    · simp [entryToItem, hps, hpd]
  simp [loadExistingItems, List.filterMap_append, List.filterMap_cons, he]

/-- Witness for C10: an entry with an unparsable date inside the retention
    window contributes nothing. -/
theorem unparsable_pubdate_dropped_witness :
    loadExistingItems parseTs 0 [⟨some "yesterday", "t", "l", "d", none⟩] =
      loadExistingItems parseTs 0 [] :=
  unparsable_pubdate_dropped parseTs 0 [] []
    ⟨some "yesterday", "t", "l", "d", none⟩
    (Or.inr ⟨"yesterday", rfl, by decide⟩)

theorem entryToItem_eq_some {pd : String → Option Int} {cutoff : Int}
    {e : FeedEntry} {it : Item} :
    entryToItem pd cutoff e = some it ↔
      ∃ ps dt, e.published = some ps ∧ pd ps = some dt ∧ cutoff < dt ∧
        it = { title := e.title, link := e.link, description := e.description,
               guid := e.id.getD e.link, pubDate := dt } := by
  constructor
  · intro h
    rcases hp : e.published with _ | ps
    · simp [entryToItem, hp] at h
    simp only [entryToItem, hp] at h
    rcases hd : pd ps with _ | dt
    · simp [hd] at h
    simp only [hd] at h
    split at h
    · cases h
      exact ⟨ps, dt, rfl, hd, by assumption, rfl⟩
    · cases h
  · rintro ⟨ps, dt, hps, hdt, hlt, hit⟩
    simp [entryToItem, hps, hdt, hlt, hit]

/-- C5 (amended): membership in the surviving-item list is characterized by a
    parsable publish date strictly greater than the cutoff (`dt > cutoff` in
    the source); an entry whose date is exactly `now - 14 days` is dropped,
    not kept. -/
theorem retention_membership_amended (pd : String → Option Int) (cutoff : Int)
    (entries : List FeedEntry) (it : Item) :
    it ∈ loadExistingItems pd cutoff entries ↔
      ∃ e ∈ entries, ∃ ps dt, e.published = some ps ∧ pd ps = some dt ∧ cutoff < dt ∧
        it = { title := e.title, link := e.link, description := e.description,
               guid := e.id.getD e.link, pubDate := dt } := by
  unfold loadExistingItems
  rw [List.mem_filterMap]
  constructor
  · rintro ⟨e, he, hsome⟩
    exact ⟨e, he, entryToItem_eq_some.mp hsome⟩
  · rintro ⟨e, he, hrest⟩
    exact ⟨e, he, entryToItem_eq_some.mpr hrest⟩

/-- Witness for C5's amended theorem: an entry published one second after the
    cutoff is in the surviving set. -/
theorem retention_membership_witness :
    (⟨"t", "l", "d", "l", 1⟩ : Item) ∈
      loadExistingItems parseTs 0 [⟨some "1", "t", "l", "d", none⟩] :=
  (retention_membership_amended parseTs 0 [⟨some "1", "t", "l", "d", none⟩]
      ⟨"t", "l", "d", "l", 1⟩).mpr
    ⟨⟨some "1", "t", "l", "d", none⟩, by decide, "1", 1, rfl, by decide, by decide, by decide⟩

theorem insertByDateDesc_perm (x : Item) (l : List Item) :
    List.Perm (insertByDateDesc x l) (x :: l) := by
  induction l with
  | nil => exact List.Perm.refl _
  | cons y ys ih =>
    unfold insertByDateDesc
    split
    · exact List.Perm.refl _
    · exact List.Perm.trans (List.Perm.cons y ih) (List.Perm.swap x y ys)

theorem sortDesc_perm (l : List Item) : List.Perm (sortDesc l) l := by
  induction l with
  | nil => exact List.Perm.refl _
  | cons x xs ih =>
    exact List.Perm.trans (insertByDateDesc_perm x (sortDesc xs)) (List.Perm.cons x ih)

/-- Counterexample for C5: with `now = 1209600` an existing item published at
    exactly `now - 14 days` (timestamp 0) is absent from the merged output —
    the output holds only the placeholder — because the source keeps an item
    only when `dt > cutoff`, strictly. -/
theorem retention_boundary_cex :
    (updateXmlFeed (fun s => s) parseTs "tech" [] 1209600
        [⟨some "0", "t", "https://x/1", "d", none⟩]).map Item.guid =
      ["tech-placeholder-1209600"] := by decide

/-- Counterexample for C1: two themes in the same run carrying byte-identical
    `expanded_html` produce two items whose guids coincide (for every content
    hash, here instantiated with the identity stand-in), so the output guid
    list is not duplicate-free. -/
theorem update_feed_guid_dup_cex :
    ¬ ((updateXmlFeed (fun s => s) parseTs "tech"
        [⟨"A", "<p>x</p>"⟩, ⟨"B", "<p>x</p>"⟩] 0 []).map Item.guid).Nodup := by decide

/-- C1 (amended): the output guids of `update_xml_feed` are pairwise distinct
    provided the surviving existing items carry pairwise-distinct guids, the
    new themes' hashed contents yield pairwise-distinct guids, and no
    surviving guid collides with a new theme's guid; the source itself never
    deduplicates by guid, so these hypotheses are necessary. -/
theorem update_feed_guid_nodup_amended (hash : String → String) (pd : String → Option Int)
    (category : String) (themes : List Theme) (now : Int) (entries : List FeedEntry)
    (hex : ((loadExistingItems pd (now - RETENTION_SECONDS) entries).map Item.guid).Nodup)
    (hnew : (themes.map (fun t => category ++ "-" ++ hash t.expanded_html)).Nodup)
    (hdisj : ∀ g ∈ (loadExistingItems pd (now - RETENTION_SECONDS) entries).map Item.guid,
        ∀ t ∈ themes, g ≠ category ++ "-" ++ hash t.expanded_html) :
    ((updateXmlFeed hash pd category themes now entries).map Item.guid).Nodup := by
  unfold updateXmlFeed
  rw [List.Perm.nodup_iff
    (List.Perm.map Item.guid (sortDesc_perm (mergedItems hash pd category themes now entries)))]
  have hmap : (themes.map (themeToItem hash category now)).map Item.guid =
      themes.map (fun t => category ++ "-" ++ hash t.expanded_html) := by
    rw [List.map_map]
    rfl
  unfold mergedItems
  split
  · simp
  · rw [List.map_append, List.nodup_append]
    refine ⟨hex, by rw [hmap]; exact hnew, ?_⟩
    intro g hg hgnews
    rw [hmap] at hgnews
    rcases List.mem_map.mp hgnews with ⟨t, ht, heq⟩
    exact hdisj g hg t ht heq.symm

/-- Witness for C1's amended theorem on a concrete input with distinct
    contents. -/
theorem update_feed_guid_nodup_witness :
    ((updateXmlFeed (fun s => s) parseTs "tech" [⟨"A", "x"⟩, ⟨"B", "y"⟩] 1209600
        [⟨some "1", "t", "https://x/1", "d", some "g1"⟩]).map Item.guid).Nodup :=
  update_feed_guid_nodup_amended (fun s => s) parseTs "tech" [⟨"A", "x"⟩, ⟨"B", "y"⟩] 1209600
    [⟨some "1", "t", "https://x/1", "d", some "g1"⟩]
    (by decide) (by decide) (by decide)

theorem mem_addSeen {s : List String} {x y : String} :
    x ∈ addSeen s y ↔ x = y ∨ x ∈ s := by
  unfold addSeen
  split
  · constructor
    · intro h
      exact Or.inr h
    · rintro (rfl | h)
      · assumption
      · exact h
  · exact List.mem_cons

theorem entryStep_ok_none {fetch : String → Option String} {pd : String → Option Int}
    {lastRun : Int} {seen : List String} {e : RssEntry} {seen1 : List String}
    (h : entryStep fetch pd lastRun seen e = Except.ok (none, seen1)) : seen1 = seen := by
  unfold entryStep at h
  rcases hp : e.published with _ | ps
  · rw [hp] at h
    cases h
    rfl
  rw [hp] at h
  simp only at h
  rcases hd : pd ps with _ | pub
  · rw [hd] at h
    cases h
  rw [hd] at h
  simp only at h
  by_cases h1 : pub ≤ lastRun
  · rw [if_pos h1] at h
    cases h
    rfl
  rw [if_neg h1] at h
  by_cases h2 : e.link ∈ seen
  · rw [if_pos h2] at h
    cases h
    rfl
  rw [if_neg h2] at h
  rcases hf : fetch e.link with _ | c
  · rw [hf] at h
    cases h
    rfl
  rw [hf] at h
  simp only at h
  by_cases hc : c = ""
  · rw [if_pos hc] at h
    cases h
    rfl
  rw [if_neg hc] at h
  cases h

theorem entryStep_ok_some {fetch : String → Option String} {pd : String → Option Int}
    {lastRun : Int} {seen : List String} {e : RssEntry} {cand : Candidate}
    {seen1 : List String}
    (h : entryStep fetch pd lastRun seen e = Except.ok (some cand, seen1)) :
    cand.url = e.link ∧ fetch e.link = some cand.content ∧ cand.content ≠ "" ∧
      e.link ∉ seen ∧ seen1 = addSeen seen e.link := by
  unfold entryStep at h
  rcases hp : e.published with _ | ps
  · rw [hp] at h
    cases h
  rw [hp] at h
  simp only at h
  rcases hd : pd ps with _ | pub
  · rw [hd] at h
    cases h
  rw [hd] at h
  simp only at h
  by_cases h1 : pub ≤ lastRun
  · rw [if_pos h1] at h
    cases h
  rw [if_neg h1] at h
  by_cases h2 : e.link ∈ seen
  · rw [if_pos h2] at h
    cases h
  rw [if_neg h2] at h
  rcases hf : fetch e.link with _ | c
  · rw [hf] at h
    cases h
  rw [hf] at h
  simp only at h
  by_cases hc : c = ""
  · rw [if_pos hc] at h
    cases h
  rw [if_neg hc] at h
  cases h
  exact ⟨rfl, rfl, hc, h2, rfl⟩

/-- Invariant of the `process_category` loop: the seen set only grows, and
    every candidate in the batch either was already accumulated or records
    exactly the fetcher's successful output for a previously-unseen link that
    is now in the final seen set. -/
theorem collectGo_spec (fetch : String → Option String) (pd : String → Option Int)
    (lastRun : Int) :
    ∀ (es : List RssEntry) (seen : List String) (acc arts : List Candidate)
      (seenF : List String),
      collectGo fetch pd lastRun es seen acc = Except.ok (arts, seenF) →
      (∀ x ∈ seen, x ∈ seenF) ∧
      (∀ c ∈ arts, c ∈ acc ∨
        (fetch c.url = some c.content ∧ c.content ≠ "" ∧ c.url ∉ seen ∧ c.url ∈ seenF)) := by
  intro es
  induction es with
  | nil =>
    intro seen acc arts seenF h
    simp only [collectGo] at h
    cases h
    constructor
    · intro x hx
      exact hx
    · intro c hc
      exact Or.inl (List.mem_reverse.mp hc)
  | cons e es ih =>
    intro seen acc arts seenF h
    simp only [collectGo] at h
    split at h
    · exact Except.noConfusion h
    · rename_i seen1 heq
      have hs : seen1 = seen := entryStep_ok_none heq
      rw [← hs]
      exact ih seen1 acc arts seenF h
    · rename_i cand seen1 heq
      obtain ⟨hu, hf, hc, hnot, hs⟩ := entryStep_ok_some heq
      subst hs
      obtain ⟨ihmono, ihprov⟩ := ih (addSeen seen e.link) (cand :: acc) arts seenF h
      constructor
      · intro x hx
        exact ihmono x (mem_addSeen.mpr (Or.inr hx))
      · intro c hc
        rcases ihprov c hc with hmem | ⟨pf, pc, pn, pF⟩
        · rcases List.mem_cons.mp hmem with rfl | hacc
          · refine Or.inr ⟨?_, ?_, ?_, ?_⟩
            · rw [hu]
              exact hf
            · exact hc
            · rw [hu]
              exact hnot
            · rw [hu]
              exact ihmono e.link (mem_addSeen.mpr (Or.inl rfl))
          · exact Or.inl hacc
        · refine Or.inr ⟨pf, pc, ?_, pF⟩
          intro hin
          exact pn (mem_addSeen.mpr (Or.inr hin))

/-- Whatever is already in the accumulator survives into the final batch. -/
theorem collectGo_acc_mem (fetch : String → Option String) (pd : String → Option Int)
    (lastRun : Int) :
    ∀ (es : List RssEntry) (seen : List String) (acc arts : List Candidate)
      (seenF : List String),
      collectGo fetch pd lastRun es seen acc = Except.ok (arts, seenF) →
      ∀ x ∈ acc, x ∈ arts := by
  intro es
  induction es with
  | nil =>
    intro seen acc arts seenF h x hx
    simp only [collectGo] at h
    cases h
    exact List.mem_reverse.mpr hx
  | cons e es ih =>
    intro seen acc arts seenF h x hx
    simp only [collectGo] at h
    split at h
    · exact Except.noConfusion h
    · exact ih _ _ _ _ h x hx
    · exact ih _ _ _ _ h x (List.mem_cons_of_mem _ hx)

/-- C2 (amended): every candidate collected from an RSS source carries as its
    body exactly the (non-empty) text returned by the multi-strategy content
    fetch of the entry's link — the code fetches every RSS entry's link over
    the network and never uses the feed entry's inline summary; entries whose
    fetch fails are dropped, and direct-URL sources do not exist in the
    collection code. -/
theorem candidate_content_is_fetched (fetch : String → Option String)
    (pd : String → Option Int) (lastRun : Int) (seen : List String)
    (es : List RssEntry) (arts : List Candidate) (seen' : List String)
    (h : collect fetch pd lastRun seen es = Except.ok (arts, seen')) :
    ∀ c ∈ arts, fetch c.url = some c.content ∧ c.content ≠ "" := by
  intro c hc
  rcases (collectGo_spec fetch pd lastRun es seen [] arts seen' h).2 c hc with
    hacc | ⟨h1, h2, _, _⟩
  · exact absurd hacc (List.not_mem_nil c)
  · exact ⟨h1, h2⟩

/-- Counterexample for C2: for the same RSS entry, the produced candidate
    batch depends entirely on the network fetch of the entry's link — a
    successful fetch yields a candidate whose body is the fetched text (not
    the entry's inline summary), and a failed fetch yields no candidate at
    all.  Were the body taken from the feed entry with no network fetch, both
    runs would coincide. -/
theorem rss_fetch_dependence_cex :
    collect cexFetch parseTs 0 [] [cexEntry] =
      Except.ok ([⟨"T", "https://x/1", 5, longA⟩], ["https://x/1"]) ∧
    collect (fun _ => none) parseTs 0 [] [cexEntry] = Except.ok ([], []) ∧
    longA ≠ cexEntry.summary := by
  refine ⟨rfl, rfl, by decide⟩

/-- Witness for C2's amended theorem at the concrete fetch oracle. -/
theorem candidate_content_is_fetched_witness :
    cexFetch "https://x/1" = some longA ∧ longA ≠ "" :=
  candidate_content_is_fetched cexFetch parseTs 0 [] [cexEntry]
    [⟨"T", "https://x/1", 5, longA⟩] ["https://x/1"] rfl
    ⟨"T", "https://x/1", 5, longA⟩ (by decide)

/-- C4 (amended): candidate collection applies no block filter at all — a
    candidate whose fetched text matches a configured block pattern
    (case-insensitively) is still included in the batch handed to the
    summarizer; the `omit_categories` configuration only becomes instruction
    text inside the prompt. -/
theorem blocked_content_still_collected (fetch : String → Option String)
    (pd : String → Option Int) (lastRun : Int) (seen : List String)
    (pats : List String) (e : RssEntry) (es : List RssEntry) (ps : String) (pub : Int)
    (c : String) (arts : List Candidate) (seen' : List String)
    (h1 : e.published = some ps) (h2 : pd ps = some pub) (h3 : lastRun < pub)
    (h4 : e.link ∉ seen) (h5 : fetch e.link = some c) (h6 : c ≠ "")
    (_h7 : blockMatches pats c = true)
    (h8 : collect fetch pd lastRun seen (e :: es) = Except.ok (arts, seen')) :
    (⟨e.title, e.link, pub, c⟩ : Candidate) ∈ arts := by
  have hstep : entryStep fetch pd lastRun seen e =
      Except.ok (some ⟨e.title, e.link, pub, c⟩, addSeen seen e.link) := by
    unfold entryStep
    rw [h1]
    simp only
    rw [h2]
    simp only
    rw [if_neg (not_le.mpr h3), if_neg h4, h5]
    simp only
    rw [if_neg h6]
  unfold collect at h8
  simp only [collectGo, hstep] at h8
  exact collectGo_acc_mem fetch pd lastRun es (addSeen seen e.link)
    [⟨e.title, e.link, pub, c⟩] arts seen' h8 _ (List.mem_cons_self _ _)

/-- Counterexample for C4: a candidate whose fetched text matches the
    configured block pattern "crypto" (case-insensitively) still ends up in
    the batch handed to the summarizer — the collection code has no block
    filter. -/
theorem block_filter_absent_cex :
    blockMatches ["crypto"] longCrypto = true ∧
    collect (fun _ => some longCrypto) parseTs 0 [] [cexEntryBlock] =
      Except.ok ([⟨"T", "https://y/1", 5, longCrypto⟩], ["https://y/1"]) := by
  refine ⟨by decide, rfl⟩

/-- Witness for C4's amended theorem at the concrete blocked input. -/
theorem blocked_content_still_collected_witness :
    (⟨"T", "https://y/1", 5, longCrypto⟩ : Candidate) ∈
      [(⟨"T", "https://y/1", 5, longCrypto⟩ : Candidate)] :=
  blocked_content_still_collected (fun _ => some longCrypto) parseTs 0 [] ["crypto"]
    cexEntryBlock [] "5" 5 longCrypto
    [⟨"T", "https://y/1", 5, longCrypto⟩] ["https://y/1"]
    rfl (by decide) (by decide) (by decide) rfl (by decide) (by decide) rfl

theorem mem_addHref {s : List String} {x h : String} :
    x ∈ addHref s h ↔ x ∈ s ∨ (h ≠ "" ∧ x = strip h) := by
  unfold addHref
  split
  · rename_i he
    simp [he]
  · rename_i he
    rw [mem_addSeen]
    constructor
    · rintro (hx | hs)
      · exact Or.inr ⟨he, hx⟩
      · exact Or.inl hs
    · rintro (hs | ⟨_, hx⟩)
      · exact Or.inr hs
      · exact Or.inl hx

theorem mem_foldl_addHref {x : String} :
    ∀ (hrefs : List String) (s : List String),
      x ∈ hrefs.foldl addHref s ↔ x ∈ s ∨ ∃ h ∈ hrefs, h ≠ "" ∧ x = strip h := by
  intro hrefs
  induction hrefs with
  | nil =>
    intro s
    simp
  | cons hd tl ih =>
    intro s
    rw [List.foldl_cons, ih, mem_addHref]
    constructor
    · rintro ((hs | ⟨hne, hx⟩) | ⟨h, hh, hne, hx⟩)
      · exact Or.inl hs
      · exact Or.inr ⟨hd, List.mem_cons_self _ _, hne, hx⟩
      · exact Or.inr ⟨h, List.mem_cons_of_mem _ hh, hne, hx⟩
    · rintro (hs | ⟨h, hh, hne, hx⟩)
      · exact Or.inl (Or.inl hs)
      · rcases List.mem_cons.mp hh with rfl | hh2
        · exact Or.inl (Or.inr ⟨hne, hx⟩)
        · exact Or.inr ⟨h, hh2, hne, hx⟩

theorem mem_addDesc {s : List String} {x : String} {d : Option (List String)} :
    x ∈ addDesc s d ↔
      x ∈ s ∨ ∃ hrefs, d = some hrefs ∧ ∃ h ∈ hrefs, h ≠ "" ∧ x = strip h := by
  cases d with
  | none => simp [addDesc]
  | some hrefs =>
    rw [show addDesc s (some hrefs) = hrefs.foldl addHref s from rfl, mem_foldl_addHref]
    constructor
    · rintro (hs | hrest)
      · exact Or.inl hs
      · exact Or.inr ⟨hrefs, rfl, hrest⟩
    · rintro (hs | ⟨hrefs2, heq, hrest⟩)
      · exact Or.inl hs
      · cases heq
        exact Or.inr hrest

theorem mem_foldl_addDesc {x : String} :
    ∀ (ds : List (Option (List String))) (s : List String),
      x ∈ ds.foldl addDesc s ↔
        x ∈ s ∨ ∃ d ∈ ds, ∃ hrefs, d = some hrefs ∧ ∃ h ∈ hrefs, h ≠ "" ∧ x = strip h := by
  intro ds
  induction ds with
  | nil =>
    intro s
    simp
  | cons hd tl ih =>
    intro s
    rw [List.foldl_cons, ih, mem_addDesc]
    constructor
    · rintro ((hs | ⟨hrefs, heq, hrest⟩) | ⟨d, hd2, hrest⟩)
      · exact Or.inl hs
      · exact Or.inr ⟨hd, List.mem_cons_self _ _, hrefs, heq, hrest⟩
      · exact Or.inr ⟨d, List.mem_cons_of_mem _ hd2, hrest⟩
    · rintro (hs | ⟨d, hd2, hrest⟩)
      · exact Or.inl (Or.inl hs)
      · rcases List.mem_cons.mp hd2 with rfl | hd3
        · exact Or.inl (Or.inr hrest)
        · exact Or.inr ⟨d, hd3, hrest⟩

theorem mem_addFile {s : List String} {x : String} {f : Option XmlFile} :
    x ∈ addFile s f ↔
      x ∈ s ∨ ∃ file, f = some file ∧ ∃ d ∈ file.descriptions, ∃ hrefs, d = some hrefs ∧
        ∃ h ∈ hrefs, h ≠ "" ∧ x = strip h := by
  cases f with
  | none => simp [addFile]
  | some file =>
    rw [show addFile s (some file) = file.descriptions.foldl addDesc s from rfl,
      mem_foldl_addDesc]
    constructor
    · rintro (hs | hrest)
      · exact Or.inl hs
      · exact Or.inr ⟨file, rfl, hrest⟩
    · rintro (hs | ⟨file2, heq, hrest⟩)
      · exact Or.inl hs
      · cases heq
        exact Or.inr hrest

theorem mem_getSeenUrls {x : String} :
    ∀ (files : List (Option XmlFile)) (s : List String),
      x ∈ files.foldl addFile s ↔
        x ∈ s ∨ ∃ file, some file ∈ files ∧ ∃ d ∈ file.descriptions, ∃ hrefs,
          d = some hrefs ∧ ∃ h ∈ hrefs, h ≠ "" ∧ x = strip h := by
  intro files
  induction files with
  | nil =>
    intro s
    simp
  | cons hd tl ih =>
    intro s
    rw [List.foldl_cons, ih, mem_addFile]
    constructor
    · rintro ((hs | ⟨file, heq, hrest⟩) | ⟨file, hm, hrest⟩)
      · exact Or.inl hs
      · exact Or.inr ⟨file, by rw [heq]; exact List.mem_cons_self _ _, hrest⟩
      · exact Or.inr ⟨file, List.mem_cons_of_mem _ hm, hrest⟩
    · rintro (hs | ⟨file, hm, hrest⟩)
      · exact Or.inl (Or.inl hs)
      · rcases List.mem_cons.mp hm with heq | hm2
        · exact Or.inl (Or.inr ⟨file, heq.symm, hrest⟩)
        · exact Or.inr ⟨file, hm2, hrest⟩

/-- Counterexample for C7: a category file holding one item whose direct
    `link` field is `https://x/1` and whose description embeds no anchor
    yields a seen set that does NOT contain that link — `get_seen_urls`
    never extracts the direct `link` fields. -/
theorem seen_urls_direct_link_cex :
    "https://x/1" ∉ getSeenUrls [some ⟨["https://x/1"], [some []]⟩] := by decide

/-- C7 (amended): the extracted seen set consists exactly of the non-empty,
    stripped anchor hrefs embedded in `description` elements of readable
    category files; the items' direct `link` fields are not a membership
    signal and are never added. -/
theorem seen_urls_membership_amended (files : List (Option XmlFile)) (url : String) :
    url ∈ getSeenUrls files ↔
      ∃ file, some file ∈ files ∧ ∃ d ∈ file.descriptions, ∃ hrefs, d = some hrefs ∧
        ∃ h ∈ hrefs, h ≠ "" ∧ url = strip h := by
  unfold getSeenUrls
  rw [mem_getSeenUrls]
  simp

/-- Witness for C7's amended theorem: an embedded href is in the seen set. -/
theorem seen_urls_membership_witness :
    "https://a/1" ∈ getSeenUrls [some ⟨[], [some ["https://a/1"]]⟩] :=
  (seen_urls_membership_amended [some ⟨[], [some ["https://a/1"]]⟩] "https://a/1").mpr
    ⟨⟨[], [some ["https://a/1"]]⟩, by decide, some ["https://a/1"], by decide,
      ["https://a/1"], rfl, "https://a/1", by decide, by decide⟩

theorem signalStep_ok_some {fetch : String → Option String} {pd : String → Option Int}
    {lastRun : Int} {seen : List String} {e : RssEntry} {cand : Candidate}
    (h : signalStep fetch pd lastRun seen e = Except.ok (some cand)) :
    cand.url = e.link ∧ e.link ∉ seen := by
  unfold signalStep at h
  rcases hp : e.published with _ | ps
  · rw [hp] at h
    cases h
  rw [hp] at h
  simp only at h
  rcases hd : pd ps with _ | pub
  · rw [hd] at h
    cases h
  rw [hd] at h
  simp only at h
  by_cases h1 : pub ≤ lastRun
  · rw [if_pos h1] at h
    cases h
  rw [if_neg h1] at h
  by_cases h2 : e.link ∈ seen
  · rw [if_pos h2] at h
    cases h
  rw [if_neg h2] at h
  rcases hf : fetch e.link with _ | c
  · rw [hf] at h
    cases h
  rw [hf] at h
  simp only at h
  by_cases hc : c = ""
  · rw [if_pos hc] at h
    cases h
  rw [if_neg hc] at h
  cases h
  exact ⟨rfl, h2⟩

theorem collectSignalsGo_suppress (fetch : String → Option String)
    (pd : String → Option Int) (lastRun : Int) (seen : List String) (url : String)
    (hurl : url ∈ seen) :
    ∀ (es : List RssEntry) (acc sigs : List Candidate),
      collectSignalsGo fetch pd lastRun seen es acc = Except.ok sigs →
      (∀ x ∈ acc, x.url ≠ url) → ∀ c ∈ sigs, c.url ≠ url := by
  intro es
  induction es with
  | nil =>
    intro acc sigs h hacc c hcs
    simp only [collectSignalsGo] at h
    cases h
    exact hacc c (List.mem_reverse.mp hcs)
  | cons e es ih =>
    intro acc sigs h hacc c hcs
    simp only [collectSignalsGo] at h
    split at h
    · exact Except.noConfusion h
    · exact ih _ _ h hacc c hcs
    · rename_i cand heq
      refine ih _ _ h ?_ c hcs
      intro x hx
      rcases List.mem_cons.mp hx with rfl | hx2
      · obtain ⟨hu, hnot⟩ := signalStep_ok_some heq
        rw [hu]
        intro hcontra
        exact hnot (hcontra ▸ hurl)
      · exact hacc x hx2

/-- C9: the seen-URL set is one process-wide pool — membership over the
    concatenation of all categories' files is the union of the per-file
    contributions — and it is mutated during the run: a URL whose fetch
    succeeded while collecting one category is in the seen set that the run
    threads onward, and candidate collection for any later category, as well
    as the social-pulse pass, produces no candidate for a URL already in the
    seen set. -/
theorem seen_set_pooled_and_mutated (fetch : String → Option String)
    (pd : String → Option Int) (lastRun : Int) (url : String) :
    (∀ fs1 fs2 : List (Option XmlFile),
      url ∈ getSeenUrls (fs1 ++ fs2) ↔ url ∈ getSeenUrls fs1 ∨ url ∈ getSeenUrls fs2) ∧
    (∀ seen es arts seen1, collect fetch pd lastRun seen es = Except.ok (arts, seen1) →
      (∀ c ∈ arts, c.url = url → url ∈ seen1) ∧
      (url ∈ seen → url ∈ seen1 ∧ ∀ c ∈ arts, c.url ≠ url)) ∧
    (∀ seen es sigs, url ∈ seen →
      collectSignals fetch pd lastRun seen es = Except.ok sigs →
      ∀ c ∈ sigs, c.url ≠ url) := by
  refine ⟨?_, ?_, ?_⟩
  · intro fs1 fs2
    unfold getSeenUrls
    rw [mem_getSeenUrls, mem_getSeenUrls, mem_getSeenUrls]
    constructor
    · rintro (hs | ⟨file, hm, hrest⟩)
      · exact absurd hs (List.not_mem_nil url)
      · rcases List.mem_append.mp hm with hm1 | hm2
        · exact Or.inl (Or.inr ⟨file, hm1, hrest⟩)
        · exact Or.inr (Or.inr ⟨file, hm2, hrest⟩)
    · rintro ((hs | ⟨file, hm, hrest⟩) | (hs | ⟨file, hm, hrest⟩))
      · exact absurd hs (List.not_mem_nil url)
      · exact Or.inr ⟨file, List.mem_append.mpr (Or.inl hm), hrest⟩
      · exact absurd hs (List.not_mem_nil url)
      · exact Or.inr ⟨file, List.mem_append.mpr (Or.inr hm), hrest⟩
  · intro seen es arts seen1 h
    obtain ⟨hmono, hprov⟩ := collectGo_spec fetch pd lastRun es seen [] arts seen1 h
    constructor
    · intro c hc hcu
      rcases hprov c hc with habs | ⟨_, _, _, hF⟩
      · exact absurd habs (List.not_mem_nil c)
      · exact hcu ▸ hF
    · intro hin
      refine ⟨hmono url hin, ?_⟩
      intro c hc hcu
      rcases hprov c hc with habs | ⟨_, _, hnot, _⟩
      · exact absurd habs (List.not_mem_nil c)
      · exact hnot (hcu ▸ hin)
  · intro seen es sigs hin h
    exact collectSignalsGo_suppress fetch pd lastRun seen url hin es [] sigs h
      (fun x hx => absurd hx (List.not_mem_nil x))

/-- Witness for C9: after a successful fetch of `https://p/1` during one
    category, that URL is in the threaded seen set. -/
theorem seen_set_pooled_and_mutated_witness :
    "https://p/1" ∈ ["https://p/1"] :=
  ((seen_set_pooled_and_mutated (fun _ => some pulseContent) parseTs 0 "https://p/1").2.1
      [] [pulseEntry] [⟨"P", "https://p/1", 5, pulseContent⟩] ["https://p/1"] rfl).1
    ⟨"P", "https://p/1", 5, pulseContent⟩ (by decide) rfl

/-- Counterexample for C3: the write for category "beta" would succeed, but
    because the earlier category "alpha" failed to write, the loop aborts and
    "beta" is never processed — the failure is not caught at the category
    boundary. -/
theorem write_failure_isolation_cex :
    failOnAlpha "beta" = Except.ok () ∧
    mainRun failOnAlpha ["alpha", "beta"] = ([], false) := by
  exact ⟨rfl, rfl⟩

/-- C3 (amended): a serialization or file-write failure for one category
    propagates out of `main`'s loop: exactly the categories before the
    failing one are written, every later category is skipped, and the run
    does not complete (so the social-pulse pass and the state-file update
    never happen). -/
theorem write_failure_aborts_run (writeCat : String → Except Unit Unit)
    (cs1 : List String) (c : String) (cs2 : List String)
    (h1 : ∀ x ∈ cs1, writeCat x = Except.ok ())
    (h2 : writeCat c = Except.error ()) :
    mainRun writeCat (cs1 ++ c :: cs2) = (cs1, false) := by
  induction cs1 with
  | nil =>
    simp only [List.nil_append, mainRun, h2]
  | cons x xs ih =>
    have hx : writeCat x = Except.ok () := h1 x (List.mem_cons_self _ _)
    have hrest := ih (fun y hy => h1 y (List.mem_cons_of_mem _ hy))
    simp only [List.cons_append, mainRun, hx, List.append_eq]
    rw [hrest]

/-- Witness for C3's amended theorem at the concrete write oracle. -/
theorem write_failure_aborts_run_witness :
    mainRun failOnAlpha ["zero", "alpha", "beta"] = (["zero"], false) :=
  write_failure_aborts_run failOnAlpha ["zero"] "alpha" ["beta"]
    (fun x hx => by
      rcases List.mem_singleton.mp hx with rfl
      rfl)
    rfl

end Aggregator
